import Mathlib

/-!
Verification of the streaming history-reconciliation client implemented in
`src/ui/src/app/api/copilotkit/route.ts` (function `createFastAPIHistoryClient`):
the SSE frame decoder inside `joinStream`, and the HTTP request/response
handling of `getHistory`, `getState`, `runs.list` and `joinStream`.

Modelling conventions:
* incoming byte chunks are modelled as already-decoded text (the code feeds
  bytes through a streaming `TextDecoder`, so each read delivers text);
* `JSON.parse` is a parameter `parse : String → Option α`, since the decoder
  only depends on success or failure of parsing and on the parsed value;
  `jsonParseDigits` below is a concrete instance agreeing with `JSON.parse`
  on the inputs used in concrete examples;
* `fetch` responses are records of status, status text and decoded body;
* thrown exceptions are `Except.error` values carrying the message string.
-/

/-- JavaScript `buffer.split("\n")`, auxiliary: `acc` holds the reversed
characters of the line currently being read. -/
def splitLinesAux : List Char → List Char → List String
  | [], acc => [String.mk acc.reverse]
  | c :: cs, acc =>
    if c = '\n' then String.mk acc.reverse :: splitLinesAux cs []
    else splitLinesAux cs (c :: acc)

/-- JavaScript `s.split("\n")`: split at every newline character, keeping
empty fragments (so a trailing newline yields a final empty string). -/
def splitLines (s : String) : List String := splitLinesAux s.data []

/-- JavaScript `s.startsWith(pre)`. -/
def strStartsWith (s pre : String) : Bool := pre.data.isPrefixOf s.data

/-- JavaScript `s.slice(n)` for a nonnegative index `n` (the source only uses
`slice(6)` and `slice(7)` after matching an ASCII prefix of that length, where
code-unit and character counting coincide). -/
def strDrop (s : String) (n : Nat) : String := String.mk (s.data.drop n)

/-- JavaScript `s.trim()`: strip whitespace from both ends (restricted to the
ASCII whitespace characters, which covers every input arising here). -/
def trimChars (s : String) : String :=
  String.mk (((s.data.dropWhile Char.isWhitespace).reverse.dropWhile Char.isWhitespace).reverse)

/-- `HistoryStreamChunk`: `{event: string, data: parsed JSON}`; the type `α`
abstracts parsed JSON values. -/
structure StreamChunk (α : Type) where
  event : String
  data : α
deriving DecidableEq

/-- The `for (const line of lines)` loop of `joinStream` (route.ts lines
212-231): an `event: ` prefix sets the event accumulator to the trimmed
remainder, a `data: ` prefix sets the data accumulator to the untrimmed
remainder, a blank line with a non-empty data accumulator parses the payload —
yielding a chunk on success and nothing on failure — and resets both
accumulators; any other line is ignored. -/
def processLines {α : Type} (parse : String → Option α) :
    List String → String → String → List (StreamChunk α)
  | [], _, _ => []
  | line :: rest, currentEvent, currentData =>
    if strStartsWith line "event: " then
      processLines parse rest (trimChars (strDrop line 7)) currentData
    else if strStartsWith line "data: " then
      processLines parse rest currentEvent (strDrop line 6)
    else if line == "" && currentData != "" then
      (match parse currentData with
        | some d => [⟨if currentEvent == "" then "message" else currentEvent, d⟩]
        | none => []) ++ processLines parse rest "" ""
    else
      processLines parse rest currentEvent currentData

/-- Handling of one decoded text chunk (route.ts lines 203-231): append the
chunk to the carried buffer, split on newlines, retain the final
possibly-incomplete fragment as the new buffer, and run the line loop over the
complete lines with freshly initialised accumulators (`currentEvent` and
`currentData` are declared inside the `while` loop in the source, hence start
as `""` for every chunk). Returns the new buffer and the chunks yielded. -/
def processChunk {α : Type} (parse : String → Option α) (buffer chunk : String) :
    String × List (StreamChunk α) :=
  let buf := buffer ++ chunk
  let lines := splitLines buf
  ((lines.getLast?).getD "", processLines parse lines.dropLast "" "")

/-- The read loop of `joinStream` (route.ts lines 196-232) on a list of text
chunks delivered by successive reads: when the reads are exhausted (`done`),
the loop breaks and whatever remains in the buffer is discarded. -/
def decodeLoop {α : Type} (parse : String → Option α) :
    List String → String → List (StreamChunk α)
  | [], _ => []
  | chunk :: rest, buffer =>
    let pc := processChunk parse buffer chunk
    pc.2 ++ decodeLoop parse rest pc.1

/-- The complete decode pipeline of `joinStream` applied to a stream delivered
as the given list of text chunks, starting from the empty buffer. -/
def joinStreamDecode {α : Type} (parse : String → Option α) (chunks : List String) :
    List (StreamChunk α) :=
  decodeLoop parse chunks ""

/-- Concrete stand-in for the platform `JSON.parse`, exact on the fragment
needed by the concrete examples below: a nonempty string of ASCII digits
parses as that number, every other input fails. On the payloads used in the
examples (digit strings, and strings such as "\x7b" on which `JSON.parse`
throws), this agrees with `JSON.parse`. -/
def jsonParseDigits (s : String) : Option Nat :=
  if !s.data.isEmpty && s.data.all Char.isDigit then
    some (s.data.foldl (fun n c => 10 * n + (c.toNat - 48)) 0)
  else none

/-- A single line of wire input, rendered with its terminating newline;
`renderLines ls` is the wire text whose lines are exactly `ls` followed by an
empty unterminated fragment. -/
def renderLines : List String → String
  | [] => ""
  | l :: ls => l ++ "\n" ++ renderLines ls

/-- The wire lines of one SSE frame: an optional `event: ` line, one
`data: ` line, and the terminating blank line. -/
def frameLinesRaw (ev : Option String) (payload : String) : List String :=
  (match ev with
    | some e => ["event: " ++ e]
    | none => []) ++ ["data: " ++ payload, ""]

/-- One well-formed frame of wire input: an optional event name, a payload
string, and the value that payload parses to. -/
structure WireFrame (α : Type) where
  ev : Option String
  payload : String
  value : α
deriving DecidableEq

/-- The wire lines of a `WireFrame`. -/
def WireFrame.lines {α : Type} (f : WireFrame α) : List String :=
  frameLinesRaw f.ev f.payload

/-- A string free of newline characters (fits on one wire line). -/
def noNewline (s : String) : Bool := s.data.all (fun c => !(c == '\n'))

/-- Well-formedness of a `WireFrame` relative to a parse function: the payload
parses to the recorded value, is nonempty (the empty string is not valid JSON,
and an empty data accumulator suppresses emission), and neither the payload
nor the event name spans lines. -/
def WireFrame.Wf {α : Type} (parse : String → Option α) (f : WireFrame α) : Prop :=
  parse f.payload = some f.value ∧ f.payload ≠ "" ∧ noNewline f.payload = true ∧
    f.ev.all noNewline = true

/-- Well-formedness is decidable (used to check concrete instances). -/
instance {α : Type} [DecidableEq α] (parse : String → Option α) (f : WireFrame α) :
    Decidable (f.Wf parse) := by
  unfold WireFrame.Wf
  exact inferInstance

/-- Result of one `reader.read()` in the decode loop: a text chunk, the
`done` signal, or a rejection (the only mid-stream error source, since the
non-fatal `TextDecoder` never throws and `JSON.parse` failures are caught). -/
inductive ReadResult where
  | chunk (s : String)
  | done
  | error
deriving DecidableEq

/-- How one execution of the decode loop ended. -/
inductive ExitKind where
  | normal
  | errored
  | abandoned
deriving DecidableEq

/-- Observable outcome of one execution of the `joinStream` body after the
reader was obtained: the chunks delivered to the consumer, the exit kind, and
the number of `reader.releaseLock()` calls executed. -/
structure LoopRun (α : Type) where
  yielded : List (StreamChunk α)
  exit : ExitKind
  releases : Nat
deriving DecidableEq

/-- One execution of the `try { while ... } finally { reader.releaseLock() }`
region of `joinStream` (route.ts lines 195-235), as a function of the
successive read results and of the consumer: `limit = none` means the consumer
pulls every chunk; `limit = some r` means it pulls `r` chunks and then closes
the iterator (JavaScript resumes the suspended generator so that the `finally`
block runs). The `finally` semantics is transcribed by performing exactly the
releases the block does — one `releaseLock` — at each exit of the region:
loop break on `done` (or source exhaustion), error propagation, and close. -/
def runJoinStream {α : Type} (parse : String → Option α) :
    List ReadResult → String → Option Nat → LoopRun α
  | _, _, some 0 => ⟨[], ExitKind.abandoned, 1⟩
  | [], _, none => ⟨[], ExitKind.normal, 1⟩
  | [], _, some (_ + 1) => ⟨[], ExitKind.normal, 1⟩
  | ReadResult.done :: _, _, none => ⟨[], ExitKind.normal, 1⟩
  | ReadResult.done :: _, _, some (_ + 1) => ⟨[], ExitKind.normal, 1⟩
  | ReadResult.error :: _, _, none => ⟨[], ExitKind.errored, 1⟩
  | ReadResult.error :: _, _, some (_ + 1) => ⟨[], ExitKind.errored, 1⟩
  | ReadResult.chunk s :: rs, buffer, none =>
    let pc := processChunk parse buffer s
    let rest := runJoinStream parse rs pc.1 none
    ⟨pc.2 ++ rest.yielded, rest.exit, rest.releases⟩
  | ReadResult.chunk s :: rs, buffer, some (r + 1) =>
    let pc := processChunk parse buffer s
    if pc.2.length < r + 1 then
      let rest := runJoinStream parse rs pc.1 (some (r + 1 - pc.2.length))
      ⟨pc.2 ++ rest.yielded, rest.exit, rest.releases⟩
    else
      ⟨pc.2.take (r + 1), ExitKind.abandoned, 1⟩

/-- WHATWG fetch `Response.ok`: status in the inclusive range 200-299. -/
def responseOk (status : Nat) : Bool := 200 ≤ status && status ≤ 299

/-- A fetch response for the JSON endpoints: status, status text, and the
JSON decoding of the body (`β`), consulted only on the success path. -/
structure FetchResponse (β : Type) where
  status : Nat
  statusText : String
  jsonBody : β
deriving DecidableEq

/-- A fetch response for the streaming endpoint: status, status text, and the
optional body, given as the text chunks its reader will deliver
(`none` models a response with no body, `response.body === null`). -/
structure StreamResponse where
  status : Nat
  statusText : String
  body : Option (List ReadResult)
deriving DecidableEq

/-- The `values` object of a `ThreadState` (`{messages: [...]}`), with `μ`
abstracting message values. -/
structure ThreadStateValues (μ : Type) where
  messages : List μ
deriving DecidableEq

/-- `ThreadState`: `values`, pending node names `next`, pending task
descriptors `tasks`; `μ`, `ν`, `τ` abstract the backend-defined elements. -/
structure ThreadState (μ ν τ : Type) where
  values : ThreadStateValues μ
  next : List ν
  tasks : List τ
deriving DecidableEq

/-- The canonical empty thread state `{values: {messages: []}, next: [],
tasks: []}` returned for new threads (route.ts lines 128-132). -/
def emptyThreadState {μ ν τ : Type} : ThreadState μ ν τ := ⟨⟨[]⟩, [], []⟩

/-- Response handling of `threads.getHistory` (route.ts lines 110-114):
a non-ok status throws, otherwise the decoded body is returned. -/
def getHistoryResult {σ : Type} (response : FetchResponse (List σ)) :
    Except String (List σ) :=
  if !responseOk response.status then
    Except.error ("Failed to fetch history: " ++ response.statusText)
  else
    Except.ok response.jsonBody

/-- Response handling of `threads.getState` (route.ts lines 125-137): on a
non-ok status, a 404 returns the canonical empty state, any other status
throws; an ok status returns the decoded body. -/
def getStateResult {μ ν τ : Type} (response : FetchResponse (ThreadState μ ν τ)) :
    Except String (ThreadState μ ν τ) :=
  if !responseOk response.status then
    if response.status == 404 then
      Except.ok emptyThreadState
    else
      Except.error ("Failed to fetch state: " ++ response.statusText)
  else
    Except.ok response.jsonBody

/-- Response handling of `runs.list` (route.ts lines 150-154): a non-ok
status throws, otherwise the decoded body is returned. -/
def listRunsResult {ρ : Type} (response : FetchResponse (List ρ)) :
    Except String (List ρ) :=
  if !responseOk response.status then
    Except.error ("Failed to list runs: " ++ response.statusText)
  else
    Except.ok response.jsonBody

/-- Behaviour of `runs.joinStream` after the initial response arrives
(route.ts lines 182-235): a non-ok status throws; an ok response with no body
yields the empty sequence without obtaining a reader (zero releases); an ok
response with a body runs the decode loop on its reads. -/
def joinStreamRun {α : Type} (parse : String → Option α) (response : StreamResponse)
    (limit : Option Nat) : Except String (LoopRun α) :=
  if !responseOk response.status then
    Except.error ("Failed to join stream: " ++ response.statusText)
  else
    match response.body with
    | none => Except.ok ⟨[], ExitKind.normal, 0⟩
    | some reads => Except.ok (runJoinStream parse reads "" limit)

/-- The characters `encodeURIComponent` leaves unescaped besides ASCII
letters and digits: `- _ . ! ~ *` and apostrophe and parentheses. -/
def uriMarkChars : List Char := ['-', '_', '.', '!', '~', '*', Char.ofNat 39, '(', ')']

/-- ECMAScript `encodeURIComponent` unreserved set. -/
def isUriUnreserved (c : Char) : Bool :=
  (('A' ≤ c && c ≤ 'Z') || ('a' ≤ c && c ≤ 'z') || ('0' ≤ c && c ≤ '9'))
    || uriMarkChars.contains c

/-- Uppercase hexadecimal digit for `n < 16`. -/
def hexDigitChar (n : Nat) : Char :=
  if n < 10 then Char.ofNat (48 + n) else Char.ofNat (55 + n)

/-- Percent-escape of one byte, `%XX` with uppercase hex. -/
def percentEncodeByte (b : Nat) : List Char :=
  ['%', hexDigitChar (b / 16), hexDigitChar (b % 16)]

/-- UTF-8 byte sequence of one character. -/
def utf8Bytes (c : Char) : List Nat :=
  let n := c.toNat
  if n < 128 then [n]
  else if n < 2048 then [192 + n / 64, 128 + n % 64]
  else if n < 65536 then [224 + n / 4096, 128 + (n / 64) % 64, 128 + n % 64]
  else [240 + n / 262144, 128 + (n / 4096) % 64, 128 + (n / 64) % 64, 128 + n % 64]

/-- ECMAScript `encodeURIComponent(c)` for one character. -/
def encodeUriChar (c : Char) : List Char :=
  if isUriUnreserved c then [c] else ((utf8Bytes c).map percentEncodeByte).flatten

/-- ECMAScript `encodeURIComponent`. -/
def encodeURIComponent (s : String) : String :=
  String.mk ((s.data.map encodeUriChar).flatten)

/-- JavaScript `s.endsWith(suf)`. -/
def strEndsWith (s suf : String) : Bool := suf.data.reverse.isPrefixOf s.data.reverse

/-- The base-URL normalisation `baseUrl.replace(/\/$/, "")` at route.ts line
97: strip one trailing slash when present. -/
def normalizeBaseUrl (s : String) : String :=
  if strEndsWith s "/" then String.mk s.data.dropLast else s

/-- An outbound HTTP request as the client builds it; `streamModeBody` is the
`streamMode` array of the JSON request body (serialisation abstracted). -/
structure HttpRequest where
  url : String
  method : String
  acceptHeader : Option String
  contentTypeHeader : Option String
  streamModeBody : Option (List String)
deriving DecidableEq

/-- The optional options object of `getHistory`, `{limit?: number}`. -/
structure HistoryOptions where
  limit : Option Nat
deriving DecidableEq

/-- The request issued by `threads.getHistory` (route.ts lines 104-108):
a plain `fetch` (method GET, no headers, no body) of
`{url}/threads/{threadId}/history?limit={limit}` with the thread id
percent-encoded and `limit = options?.limit ?? 100`. -/
def getHistoryRequest (baseUrl threadId : String) (options : Option HistoryOptions) :
    HttpRequest :=
  let limit : Nat :=
    match options with
    | some o => o.limit.getD 100
    | none => 100
  { url := normalizeBaseUrl baseUrl ++ "/threads/" ++ encodeURIComponent threadId
      ++ "/history?limit=" ++ toString limit
    method := "GET"
    acceptHeader := none
    contentTypeHeader := none
    streamModeBody := none }

/-- The request issued by `runs.joinStream` (route.ts lines 168-180): a POST
of `{url}/runs/{runId}/join?thread_id={threadId}` with SSE accept header, JSON
content type, and a body carrying the stream modes (default all four). -/
def joinStreamRequest (baseUrl threadId runId : String)
    (streamMode : Option (List String)) : HttpRequest :=
  { url := normalizeBaseUrl baseUrl ++ "/runs/" ++ encodeURIComponent runId
      ++ "/join?thread_id=" ++ encodeURIComponent threadId
    method := "POST"
    acceptHeader := some "text/event-stream"
    contentTypeHeader := some "application/json"
    streamModeBody := some (streamMode.getD ["events", "values", "updates", "custom"]) }

/-- Sanity example: the decoder on a two-frame one-shot stream. -/
example :
    joinStreamDecode jsonParseDigits ["event: run\ndata: 7\n\ndata: 32\n\n"]
      = [⟨"run", 7⟩, ⟨"message", 32⟩] := by decide

/-- Sanity example: a trailing fragment without its blank line is discarded. -/
example : joinStreamDecode jsonParseDigits ["data: 7\n\ndata: 32"] = [⟨"message", 7⟩] := by
  decide

/-- A list is a `isPrefixOf` itself extended on the right. -/
theorem isPrefixOf_append_self (l r : List Char) : l.isPrefixOf (l ++ r) = true := by
  induction l with
  | nil => simp [List.isPrefixOf]
  | cons a as ih => simp [List.isPrefixOf, ih]

/-- A line obtained as `"event: " ++ e` matches the event prefix. -/
theorem strStartsWith_event (e : String) : strStartsWith ("event: " ++ e) "event: " = true := by
  have h := isPrefixOf_append_self "event: ".data e.data
  simp [strStartsWith, String.data_append, h]

/-- A line obtained as `"data: " ++ p` matches the data prefix. -/
theorem strStartsWith_data (p : String) : strStartsWith ("data: " ++ p) "data: " = true := by
  have h := isPrefixOf_append_self "data: ".data p.data
  simp [strStartsWith, String.data_append, h]

/-- A data line never matches the event prefix. -/
theorem strStartsWith_data_event (p : String) :
    strStartsWith ("data: " ++ p) "event: " = false := rfl

/-- The empty line matches neither prefix. -/
theorem strStartsWith_empty_event : strStartsWith "" "event: " = false := rfl

/-- The empty line matches neither prefix. -/
theorem strStartsWith_empty_data : strStartsWith "" "data: " = false := rfl

/-- `slice(7)` recovers the text after the event prefix. -/
theorem strDrop_event (e : String) : strDrop ("event: " ++ e) 7 = e := rfl

/-- `slice(6)` recovers the text after the data prefix. -/
theorem strDrop_data (p : String) : strDrop ("data: " ++ p) 6 = p := rfl

/-- `noNewline` unfolded to a membership statement. -/
theorem noNewline_iff (s : String) : noNewline s = true ↔ ∀ c ∈ s.data, c ≠ '\n' := by
  simp [noNewline, List.all_eq_true]

/-- `splitLinesAux` always returns at least one fragment. -/
theorem splitLinesAux_ne_nil : ∀ (cs acc : List Char), splitLinesAux cs acc ≠ [] := by
  intro cs
  induction cs with
  | nil => intro acc; simp [splitLinesAux]
  | cons c cs ih =>
    intro acc
    by_cases h : c = '\n' <;> simp [splitLinesAux, h, ih]

/-- Splitting a newline-free tail yields the single merged fragment. -/
theorem splitLinesAux_no_newline :
    ∀ (t acc : List Char), (∀ c ∈ t, c ≠ '\n') →
      splitLinesAux t acc = [String.mk (acc.reverse ++ t)] := by
  intro t
  induction t with
  | nil => intro acc _; simp [splitLinesAux]
  | cons c cs ih =>
    intro acc h
    have hc : ¬(c = '\n') := h c (by simp)
    have := ih (c :: acc) (fun x hx => h x (by simp [hx]))
    simp [splitLinesAux, hc, this, List.append_assoc]

/-- Splitting peels one complete newline-terminated line off the front. -/
theorem splitLinesAux_line :
    ∀ (l rest acc : List Char), (∀ c ∈ l, c ≠ '\n') →
      splitLinesAux (l ++ '\n' :: rest) acc
        = String.mk (acc.reverse ++ l) :: splitLinesAux rest [] := by
  intro l
  induction l with
  | nil => intro rest acc _; simp [splitLinesAux]
  | cons c cs ih =>
    intro rest acc h
    have hc : ¬(c = '\n') := h c (by simp)
    have := ih rest (c :: acc) (fun x hx => h x (by simp [hx]))
    simp [splitLinesAux, hc, this, List.append_assoc]

/-- The wire text of a list of newline-free lines splits back into exactly
those lines followed by the empty trailing fragment. -/
theorem splitLines_renderLines :
    ∀ (ls : List String), (∀ l ∈ ls, noNewline l = true) →
      splitLines (renderLines ls) = ls ++ [""] := by
  intro ls
  induction ls with
  | nil => intro _; rfl
  | cons l ls ih =>
    intro h
    have hl : ∀ c ∈ l.data, c ≠ '\n' := (noNewline_iff l).mp (h l (by simp))
    have hrest := ih (fun x hx => h x (by simp [hx]))
    show splitLinesAux (renderLines (l :: ls)).data [] = (l :: ls) ++ [""]
    have hdata : (renderLines (l :: ls)).data = l.data ++ '\n' :: (renderLines ls).data := by
      show (l ++ "\n" ++ renderLines ls).data = _
      simp [String.data_append]
    rw [hdata, splitLinesAux_line l.data (renderLines ls).data [] hl]
    simpa [splitLines] using hrest

/-- Stepping the line loop over an event line: the event accumulator is set
to the trimmed remainder. -/
theorem processLines_event_line {α : Type} (parse : String → Option α) (e : String)
    (rest : List String) (ev0 d0 : String) :
    processLines parse (("event: " ++ e) :: rest) ev0 d0
      = processLines parse rest (trimChars e) d0 := by
  simp [processLines, strStartsWith_event, strDrop_event]

/-- Stepping the line loop over a data line: the data accumulator is set to
the untrimmed remainder, overwriting whatever it held. -/
theorem processLines_data_line {α : Type} (parse : String → Option α) (p : String)
    (rest : List String) (ev0 d0 : String) :
    processLines parse (("data: " ++ p) :: rest) ev0 d0
      = processLines parse rest ev0 p := by
  simp [processLines, strStartsWith_data, strStartsWith_data_event, strDrop_data]

/-- Stepping the line loop over a blank line with a non-empty data
accumulator: the payload is parsed, a chunk is emitted on success and nothing
on failure, and both accumulators reset. -/
theorem processLines_blank_line {α : Type} (parse : String → Option α)
    (rest : List String) (ev0 d0 : String) (hd : d0 ≠ "") :
    processLines parse ("" :: rest) ev0 d0
      = (match parse d0 with
          | some d => [⟨if ev0 == "" then "message" else ev0, d⟩]
          | none => []) ++ processLines parse rest "" "" := by
  simp [processLines, strStartsWith_empty_event, strStartsWith_empty_data, hd]

/-- Stepping the line loop over a blank line with an empty data accumulator:
nothing is emitted and the accumulators are left untouched. -/
theorem processLines_blank_line_empty {α : Type} (parse : String → Option α)
    (rest : List String) (ev0 : String) :
    processLines parse ("" :: rest) ev0 "" = processLines parse rest ev0 "" := by
  simp [processLines, strStartsWith_empty_event, strStartsWith_empty_data]

/-- Effect of one complete frame with a parsing payload on the line loop:
exactly one chunk is emitted — its event is the trimmed event-line value when
an event line is present (falling back to "message" when that trims to empty)
and the inherited event accumulator (falling back to "message") otherwise —
and both accumulators are reset for the following lines. -/
theorem processLines_wf_frame {α : Type} (parse : String → Option α) (ev : Option String)
    (p : String) (v : α) (rest : List String) (ev0 d0 : String)
    (hp : parse p = some v) (hpne : p ≠ "") :
    processLines parse (frameLinesRaw ev p ++ rest) ev0 d0
      = ⟨match ev with
          | some e => if trimChars e == "" then "message" else trimChars e
          | none => if ev0 == "" then "message" else ev0, v⟩
        :: processLines parse rest "" "" := by
  cases ev with
  | some e =>
    show processLines parse (("event: " ++ e) :: ("data: " ++ p) :: "" :: rest) ev0 d0 = _
    rw [processLines_event_line, processLines_data_line,
      processLines_blank_line parse rest (trimChars e) p hpne, hp]
    rfl
  | none =>
    show processLines parse (("data: " ++ p) :: "" :: rest) ev0 d0 = _
    rw [processLines_data_line, processLines_blank_line parse rest ev0 p hpne, hp]
    rfl

/-- Effect of one complete frame whose payload fails to parse: no chunk at
all is emitted, the data accumulator ends empty, and the loop proceeds with
some event accumulator value. -/
theorem processLines_malformed_frame {α : Type} (parse : String → Option α)
    (ev : Option String) (p : String) (rest : List String) (ev0 d0 : String)
    (hp : parse p = none) :
    ∃ ev1, processLines parse (frameLinesRaw ev p ++ rest) ev0 d0
      = processLines parse rest ev1 "" := by
  by_cases hpe : p = ""
  · subst hpe
    cases ev with
    | some e =>
      refine ⟨trimChars e, ?_⟩
      show processLines parse (("event: " ++ e) :: ("data: " ++ "") :: "" :: rest) ev0 d0 = _
      rw [processLines_event_line, processLines_data_line, processLines_blank_line_empty]
    | none =>
      refine ⟨ev0, ?_⟩
      show processLines parse (("data: " ++ "") :: "" :: rest) ev0 d0 = _
      rw [processLines_data_line, processLines_blank_line_empty]
  · refine ⟨"", ?_⟩
    cases ev with
    | some e =>
      show processLines parse (("event: " ++ e) :: ("data: " ++ p) :: "" :: rest) ev0 d0 = _
      rw [processLines_event_line, processLines_data_line,
        processLines_blank_line parse rest (trimChars e) p hpe, hp]
      rfl
    | none =>
      show processLines parse (("data: " ++ p) :: "" :: rest) ev0 d0 = _
      rw [processLines_data_line, processLines_blank_line parse rest ev0 p hpe, hp]
      rfl

/-- The data values decoded from a run of well-formed frames are exactly the
frames' values, in order, for any initial accumulator contents. -/
theorem processLines_frames_data {α : Type} (parse : String → Option α) :
    ∀ (frames : List (WireFrame α)), (∀ f ∈ frames, f.Wf parse) →
      ∀ ev0 d0 : String,
        (processLines parse ((frames.map WireFrame.lines).flatten) ev0 d0).map StreamChunk.data
          = frames.map WireFrame.value := by
  intro frames
  induction frames with
  | nil => intro _ ev0 d0; simp [processLines]
  | cons f fs ih =>
    intro h ev0 d0
    obtain ⟨hp, hpne, -, -⟩ := h f (by simp)
    have hfs := ih (fun g hg => h g (by simp [hg])) "" ""
    simp only [List.map_cons, List.flatten_cons, WireFrame.lines]
    rw [processLines_wf_frame parse f.ev f.payload f.value _ ev0 d0 hp hpne]
    simp [hfs]

/-- Appending newline-free trailing text to a chunk does not change the list
of complete lines (only the retained final fragment). -/
theorem splitLinesAux_dropLast_append :
    ∀ (xs t acc : List Char), (∀ c ∈ t, c ≠ '\n') →
      (splitLinesAux (xs ++ t) acc).dropLast = (splitLinesAux xs acc).dropLast := by
  intro xs
  induction xs with
  | nil =>
    intro t acc h
    simp [splitLinesAux_no_newline t acc h, splitLinesAux]
  | cons c cs ih =>
    intro t acc h
    by_cases hc : c = '\n'
    · subst hc
      have h1 := splitLinesAux_ne_nil (cs ++ t) []
      have h2 := splitLinesAux_ne_nil cs []
      simp [splitLinesAux, List.dropLast_cons_of_ne_nil, h1, h2, ih t [] h]
    · simp [splitLinesAux, hc, ih t (c :: acc) h]

/-- String-level form of `splitLinesAux_dropLast_append`. -/
theorem splitLines_dropLast_append (s t : String) (h : noNewline t = true) :
    (splitLines (s ++ t)).dropLast = (splitLines s).dropLast := by
  have h1 := splitLinesAux_dropLast_append s.data t.data [] ((noNewline_iff t).mp h)
  simpa [splitLines, String.data_append] using h1

/-- Decoding a stream delivered as one single chunk runs the line loop, with
fresh accumulators, over exactly the newline-terminated lines of the text. -/
theorem joinStreamDecode_renderLines {α : Type} (parse : String → Option α)
    (ls : List String) (h : ∀ l ∈ ls, noNewline l = true) :
    joinStreamDecode parse [renderLines ls] = processLines parse ls "" "" := by
  have hsplit : splitLines (renderLines ls) = ls ++ [""] := splitLines_renderLines ls h
  have he : ("" ++ renderLines ls) = renderLines ls := rfl
  simp [joinStreamDecode, decodeLoop, processChunk, he, hsplit]

/-- The decode loop ignores newline-free text appended to its final chunk:
such text never completes a line, remains in the buffer, and is discarded
when the source signals completion. -/
theorem decodeLoop_trailing_fragment {α : Type} (parse : String → Option α) :
    ∀ (cs : List String) (s t buffer : String), noNewline t = true →
      decodeLoop parse (cs ++ [s ++ t]) buffer = decodeLoop parse (cs ++ [s]) buffer := by
  intro cs
  induction cs with
  | nil =>
    intro s t buffer ht
    have hassoc : buffer ++ (s ++ t) = (buffer ++ s) ++ t := (String.append_assoc _ _ _).symm
    have hdl : (splitLines (buffer ++ (s ++ t))).dropLast
        = (splitLines (buffer ++ s)).dropLast := by
      rw [hassoc]; exact splitLines_dropLast_append (buffer ++ s) t ht
    simp [decodeLoop, processChunk, hdl]
  | cons c cs ih =>
    intro s t buffer ht
    simp [decodeLoop, ih s t _ ht]

/-- The `finally` transcription releases the reader exactly once on every
path through the decode loop: natural end, mid-stream error, and consumer
abandonment at any point. -/
theorem runJoinStream_releases {α : Type} (parse : String → Option α) :
    ∀ (reads : List ReadResult) (buffer : String) (limit : Option Nat),
      (runJoinStream parse reads buffer limit).releases = 1 := by
  intro reads
  induction reads with
  | nil =>
    intro buffer limit
    match limit with
    | none => rfl
    | some 0 => rfl
    | some (r + 1) => rfl
  | cons r rs ih =>
    intro buffer limit
    match limit with
    | none =>
      cases r with
      | chunk s => simpa [runJoinStream] using ih (processChunk parse buffer s).1 none
      | done => rfl
      | error => rfl
    | some 0 => cases r <;> rfl
    | some (n + 1) =>
      cases r with
      | chunk s =>
        by_cases hlen : (processChunk parse buffer s : String × List (StreamChunk α)).2.length < n + 1
        · simpa [runJoinStream, hlen] using
            ih (processChunk parse buffer s).1 (some (n + 1 - (processChunk parse buffer s).2.length))
        · simp [runJoinStream, hlen]
      | done => rfl
      | error => rfl

/-- Newline-freedom distributes over string concatenation. -/
theorem noNewline_append (s t : String) : noNewline (s ++ t) = (noNewline s && noNewline t) := by
  simp [noNewline, String.data_append, List.all_append]

/-- The literal event prefix is newline-free. -/
theorem noNewline_event_lit : noNewline "event: " = true := by decide

/-- The literal data prefix is newline-free. -/
theorem noNewline_data_lit : noNewline "data: " = true := by decide

/-- Every wire line of a frame whose event name and payload are newline-free
is newline-free. -/
theorem frameLinesRaw_noNewline (ev : Option String) (p : String)
    (hev : ev.all noNewline = true) (hp : noNewline p = true) :
    ∀ l ∈ frameLinesRaw ev p, noNewline l = true := by
  intro l hl
  cases ev with
  | some e =>
    have he : noNewline e = true := by simpa [Option.all] using hev
    simp only [frameLinesRaw, List.cons_append, List.nil_append, List.mem_cons,
      List.mem_singleton] at hl
    rcases hl with h | h | h | h
    · subst h; simp [noNewline_append, he, noNewline_event_lit]
    · subst h; simp [noNewline_append, hp, noNewline_data_lit]
    · subst h; rfl
    · cases h
  | none =>
    simp only [frameLinesRaw, List.nil_append, List.mem_cons, List.mem_singleton] at hl
    rcases hl with h | h | h
    · subst h; simp [noNewline_append, hp, noNewline_data_lit]
    · subst h; rfl
    · cases h

/-- Every wire line of a list of well-formed frames is newline-free. -/
theorem wf_frames_lines_noNewline {α : Type} (parse : String → Option α)
    (frames : List (WireFrame α)) (h : ∀ f ∈ frames, f.Wf parse) :
    ∀ l ∈ (frames.map WireFrame.lines).flatten, noNewline l = true := by
  intro l hl
  rw [List.mem_flatten] at hl
  obtain ⟨ls, hls, hmem⟩ := hl
  rw [List.mem_map] at hls
  obtain ⟨f, hf, hfl⟩ := hls
  obtain ⟨-, -, hp, hev⟩ := h f hf
  subst hfl
  exact frameLinesRaw_noNewline f.ev f.payload hev hp l hmem

/-- Running the line loop over a run of well-formed frames followed by two
tails that agree as continuations produces identical output. -/
theorem processLines_congr_tail {α : Type} (parse : String → Option α)
    (rest1 rest2 : List String)
    (hr : ∀ ev0 d0 : String, processLines parse rest1 ev0 d0 = processLines parse rest2 ev0 d0) :
    ∀ (frames : List (WireFrame α)), (∀ f ∈ frames, f.Wf parse) →
      ∀ ev0 d0 : String,
        processLines parse ((frames.map WireFrame.lines).flatten ++ rest1) ev0 d0
          = processLines parse ((frames.map WireFrame.lines).flatten ++ rest2) ev0 d0 := by
  intro frames
  induction frames with
  | nil => intro _ ev0 d0; simpa using hr ev0 d0
  | cons f fs ih =>
    intro h ev0 d0
    obtain ⟨hp, hpne, -, -⟩ := h f (by simp)
    have hfs := ih (fun g hg => h g (by simp [hg]))
    simp only [List.map_cons, List.flatten_cons, List.append_assoc, WireFrame.lines]
    rw [processLines_wf_frame parse f.ev f.payload f.value _ ev0 d0 hp hpne,
      processLines_wf_frame parse f.ev f.payload f.value _ ev0 d0 hp hpne]
    rw [hfs "" ""]

/-- The decoded data values of well-formed frames, a malformed frame inserted
anywhere between them, are exactly the well-formed frames' values in order:
the malformed frame contributes nothing and aborts nothing. -/
theorem processLines_wf_mal_wf {α : Type} (parse : String → Option α)
    (fs2 : List (WireFrame α)) (h2 : ∀ f ∈ fs2, f.Wf parse)
    (mev : Option String) (mp : String) (hm : parse mp = none) :
    ∀ (fs1 : List (WireFrame α)), (∀ f ∈ fs1, f.Wf parse) →
      ∀ ev0 d0 : String,
        (processLines parse
            ((fs1.map WireFrame.lines).flatten ++ frameLinesRaw mev mp
              ++ (fs2.map WireFrame.lines).flatten) ev0 d0).map StreamChunk.data
          = (fs1 ++ fs2).map WireFrame.value := by
  intro fs1
  induction fs1 with
  | nil =>
    intro _ ev0 d0
    simp only [List.map_nil, List.flatten_nil, List.nil_append]
    obtain ⟨ev1, hev1⟩ := processLines_malformed_frame parse mev mp
      ((fs2.map WireFrame.lines).flatten) ev0 d0 hm
    rw [hev1]
    exact processLines_frames_data parse fs2 h2 ev1 ""
  | cons f fs ih =>
    intro h ev0 d0
    obtain ⟨hp, hpne, -, -⟩ := h f (by simp)
    have hfs := ih (fun g hg => h g (by simp [hg])) "" ""
    simp only [List.map_cons, List.flatten_cons, List.append_assoc]
    rw [WireFrame.lines, processLines_wf_frame parse f.ev f.payload f.value _ ev0 d0 hp hpne]
    simp only [List.map_cons, List.cons_append, WireFrame.value]
    rw [← List.append_assoc]
    simpa using hfs

/-- Successive data lines each overwrite the data accumulator, so a run of
data lines only passes its effect on through the final accumulator value. -/
theorem processLines_data_lines {α : Type} (parse : String → Option α) :
    ∀ (ps : List String) (rest : List String) (ev0 d0 : String),
      ∃ d1, processLines parse ((ps.map (fun q => "data: " ++ q)) ++ rest) ev0 d0
        = processLines parse rest ev0 d1 := by
  intro ps
  induction ps with
  | nil => intro rest ev0 d0; exact ⟨d0, by simp⟩
  | cons q ps ih =>
    intro rest ev0 d0
    obtain ⟨d1, hd1⟩ := ih rest ev0 q
    refine ⟨d1, ?_⟩
    simp only [List.map_cons, List.cons_append]
    rw [processLines_data_line]
    exact hd1

/-- C1: evaluation of the decode loop at the failing input. The claim states
that the decoded chunk sequence is invariant under splitting the byte
sequence into chunks, the accumulators persisting across chunk boundaries;
but `currentEvent`/`currentData` are declared inside the read loop (route.ts
lines 209-210) and so restart empty at every chunk: the frame
"data: 1\n\n" delivered as the two chunks "data: 1\n" and "\n" decodes to no
chunk at all, while the same bytes delivered in one chunk decode to one. -/
theorem joinStream_decode_not_chunk_invariant :
    joinStreamDecode jsonParseDigits ["data: 1\n", "\n"] = []
      ∧ joinStreamDecode jsonParseDigits ["data: 1\n\n"]
          = [{ event := "message", data := 1 }] := by
  exact ⟨by decide, by decide⟩

/-- C2: for every execution of the joinStream decode loop that obtains a body
reader — whatever the sequence of read results, and whether the consumer
pulls every chunk (`limit = none`) or abandons after any number of pulls
(`limit = some r`) — the reader is released exactly once, on the normal,
errored and abandoned exit paths alike. -/
theorem joinStream_releases_reader_once {α : Type} (parse : String → Option α)
    (reads : List ReadResult) (limit : Option Nat) :
    (runJoinStream parse reads "" limit).releases = 1 :=
  runJoinStream_releases parse reads "" limit

/-- C3: when the backend responds to getState with status 404, getState does
not raise and returns exactly the canonical empty thread state
`{values: {messages: []}, next: [], tasks: []}`. -/
theorem getState_notFound_returns_empty {μ ν τ : Type}
    (response : FetchResponse (ThreadState μ ν τ)) (h : response.status = 404) :
    getStateResult response = Except.ok emptyThreadState := by
  simp [getStateResult, responseOk, h]

/-- Witness for C3 at a concrete 404 response (with a nonempty decoded body,
showing the body is ignored on this path). -/
theorem getState_notFound_returns_empty_witness :
    getStateResult (⟨404, "Not Found", ⟨⟨[5]⟩, [7], [9]⟩⟩
        : FetchResponse (ThreadState Nat Nat Nat))
      = Except.ok emptyThreadState :=
  getState_notFound_returns_empty ⟨404, "Not Found", ⟨⟨[5]⟩, [7], [9]⟩⟩ rfl

/-- C4: a non-success HTTP status makes getHistory, runs.list and the initial
joinStream request raise a transport error carrying the response status text,
and makes getState raise for any non-success status other than 404; in each
case the result is the error alone — no value and no chunk is produced. -/
theorem client_nonSuccess_raises {α σ ρ μ ν τ : Type} (parse : String → Option α)
    (limit : Option Nat)
    (hresp : FetchResponse (List σ)) (lresp : FetchResponse (List ρ))
    (jresp : StreamResponse) (sresp : FetchResponse (ThreadState μ ν τ))
    (hh : responseOk hresp.status = false) (hl : responseOk lresp.status = false)
    (hj : responseOk jresp.status = false) (hs : responseOk sresp.status = false)
    (hs404 : sresp.status ≠ 404) :
    getHistoryResult hresp
        = Except.error ("Failed to fetch history: " ++ hresp.statusText)
      ∧ listRunsResult lresp
          = Except.error ("Failed to list runs: " ++ lresp.statusText)
      ∧ joinStreamRun parse jresp limit
          = Except.error ("Failed to join stream: " ++ jresp.statusText)
      ∧ getStateResult sresp
          = Except.error ("Failed to fetch state: " ++ sresp.statusText) := by
  refine ⟨?_, ?_, ?_, ?_⟩
  · simp [getHistoryResult, hh]
  · simp [listRunsResult, hl]
  · simp [joinStreamRun, hj]
  · simp [getStateResult, hs, hs404]

/-- Witness for C4 at concrete 500 responses. -/
theorem client_nonSuccess_raises_witness :
    getHistoryResult (⟨500, "Internal Server Error", []⟩ : FetchResponse (List Nat))
        = Except.error "Failed to fetch history: Internal Server Error"
      ∧ listRunsResult (⟨500, "Internal Server Error", []⟩ : FetchResponse (List Nat))
          = Except.error "Failed to list runs: Internal Server Error"
      ∧ joinStreamRun jsonParseDigits ⟨500, "Internal Server Error", none⟩ none
          = Except.error "Failed to join stream: Internal Server Error"
      ∧ getStateResult (⟨500, "Internal Server Error", ⟨⟨[]⟩, [], []⟩⟩
            : FetchResponse (ThreadState Nat Nat Nat))
          = Except.error "Failed to fetch state: Internal Server Error" :=
  client_nonSuccess_raises jsonParseDigits none
    ⟨500, "Internal Server Error", []⟩ ⟨500, "Internal Server Error", []⟩
    ⟨500, "Internal Server Error", none⟩ ⟨500, "Internal Server Error", ⟨⟨[]⟩, [], []⟩⟩
    (by decide) (by decide) (by decide) (by decide) (by decide)

/-- C5: a stream of N well-formed frames with one malformed-JSON frame
inserted anywhere between them decodes, with no error raised, to exactly the
N chunks of the well-formed frames — their data values in the original
relative order; the malformed frame produces no chunk. -/
theorem joinStream_malformed_frame_dropped {α : Type} (parse : String → Option α)
    (fs1 fs2 : List (WireFrame α)) (mev : Option String) (mp : String)
    (h1 : ∀ f ∈ fs1, f.Wf parse) (h2 : ∀ f ∈ fs2, f.Wf parse)
    (hm : parse mp = none) (hmp : noNewline mp = true)
    (hmev : mev.all noNewline = true) :
    (joinStreamDecode parse
        [renderLines ((fs1.map WireFrame.lines).flatten ++ frameLinesRaw mev mp
          ++ (fs2.map WireFrame.lines).flatten)]).map StreamChunk.data
      = (fs1 ++ fs2).map WireFrame.value := by
  have hlines : ∀ l ∈ (fs1.map WireFrame.lines).flatten ++ frameLinesRaw mev mp
      ++ (fs2.map WireFrame.lines).flatten, noNewline l = true := by
    intro l hl
    rw [List.mem_append, List.mem_append] at hl
    rcases hl with (hl | hl) | hl
    · exact wf_frames_lines_noNewline parse fs1 h1 l hl
    · exact frameLinesRaw_noNewline mev mp hmev hmp l hl
    · exact wf_frames_lines_noNewline parse fs2 h2 l hl
  rw [joinStreamDecode_renderLines parse _ hlines]
  have h := processLines_wf_mal_wf parse fs2 h2 mev mp hm fs1 h1 "" ""
  simpa [List.append_assoc] using h

/-- Witness for C5: two well-formed frames around one malformed frame whose
payload "\x7b" fails to parse. -/
theorem joinStream_malformed_frame_dropped_witness :
    (joinStreamDecode jsonParseDigits
        [renderLines ((([⟨none, "1", 1⟩] : List (WireFrame Nat)).map WireFrame.lines).flatten
          ++ frameLinesRaw none "\x7b"
          ++ (([⟨some "run", "2", 2⟩] : List (WireFrame Nat)).map WireFrame.lines).flatten)]).map
        StreamChunk.data
      = (([⟨none, "1", 1⟩] : List (WireFrame Nat))
            ++ ([⟨some "run", "2", 2⟩] : List (WireFrame Nat))).map WireFrame.value :=
  joinStream_malformed_frame_dropped jsonParseDigits
    ([⟨none, "1", 1⟩] : List (WireFrame Nat)) ([⟨some "run", "2", 2⟩] : List (WireFrame Nat))
    none "\x7b" (by decide) (by decide) (by decide) (by decide) (by decide)

/-- C6: when the source signals completion while content remains that lacks a
terminating blank line, that trailing content produces no chunk — it is
discarded, never force-flushed. First conjunct: a trailing newline-free
fragment appended to the final chunk leaves the decoded output unchanged.
Second conjunct: a stream of well-formed frames followed by a complete
`data:` line with no terminating blank line decodes exactly as the stream
without that trailing line. -/
theorem joinStream_trailing_incomplete_discarded {α : Type} (parse : String → Option α)
    (cs : List String) (s t : String) (fs : List (WireFrame α)) (p : String)
    (ht : noNewline t = true) (hfs : ∀ f ∈ fs, f.Wf parse) (hp : noNewline p = true) :
    joinStreamDecode parse (cs ++ [s ++ t]) = joinStreamDecode parse (cs ++ [s])
    ∧ joinStreamDecode parse
        [renderLines ((fs.map WireFrame.lines).flatten ++ ["data: " ++ p])]
      = joinStreamDecode parse [renderLines ((fs.map WireFrame.lines).flatten)] := by
  constructor
  · exact decodeLoop_trailing_fragment parse cs s t "" ht
  · have hl1 : ∀ l ∈ (fs.map WireFrame.lines).flatten ++ ["data: " ++ p],
        noNewline l = true := by
      intro l hl
      rw [List.mem_append] at hl
      rcases hl with hl | hl
      · exact wf_frames_lines_noNewline parse fs hfs l hl
      · rw [List.mem_singleton] at hl
        subst hl
        simp [noNewline_append, hp, noNewline_data_lit]
    have hl2 : ∀ l ∈ (fs.map WireFrame.lines).flatten, noNewline l = true :=
      wf_frames_lines_noNewline parse fs hfs
    rw [joinStreamDecode_renderLines parse _ hl1, joinStreamDecode_renderLines parse _ hl2]
    have hr : ∀ ev0 d0 : String, processLines parse ["data: " ++ p] ev0 d0
        = processLines parse ([] : List String) ev0 d0 := by
      intro ev0 d0
      rw [processLines_data_line]
      rfl
    have h := processLines_congr_tail parse ["data: " ++ p] [] hr fs hfs "" ""
    simpa using h

/-- Witness for C6: the stream "data: 7\n\n" followed by the incomplete
trailing fragment "data: 2", and a one-frame stream followed by a complete
data line with no blank line. -/
theorem joinStream_trailing_incomplete_discarded_witness :
    joinStreamDecode jsonParseDigits (([] : List String) ++ ["data: 7\n\n" ++ "data: 2"])
        = joinStreamDecode jsonParseDigits (([] : List String) ++ ["data: 7\n\n"])
    ∧ joinStreamDecode jsonParseDigits
        [renderLines ((([⟨none, "7", 7⟩] : List (WireFrame Nat)).map WireFrame.lines).flatten
          ++ ["data: " ++ "2"])]
      = joinStreamDecode jsonParseDigits
          [renderLines ((([⟨none, "7", 7⟩] : List (WireFrame Nat)).map WireFrame.lines).flatten)] :=
  joinStream_trailing_incomplete_discarded jsonParseDigits [] "data: 7\n\n" "data: 2"
    ([⟨none, "7", 7⟩] : List (WireFrame Nat)) "2" (by decide) (by decide) (by decide)

/-- C7 as stated is false on the code: for the complete frame whose event
line is "event:  " — an event line whose value " " trims to "" — the emitted
chunk's event is the fallback "message", not the trimmed value. -/
theorem joinStream_event_trim_counterexample :
    (joinStreamDecode jsonParseDigits [renderLines (frameLinesRaw (some " ") "1")]).map
        StreamChunk.event = ["message"]
    ∧ trimChars " " = ""
    ∧ ("message" : String) ≠ trimChars " " := by
  exact ⟨by decide, by decide, by decide⟩

/-- C7 amended: a complete frame with a data line whose payload parses as
JSON and no event line yields a chunk with event "message"; when an event
line is present, the chunk's event is that line's value trimmed of
surrounding whitespace — except that a value trimming to the empty string
falls back to "message". -/
theorem joinStream_event_name_amended {α : Type} (parse : String → Option α)
    (e p : String) (v : α) (hp : parse p = some v) (hpne : p ≠ "")
    (hpn : noNewline p = true) (hen : noNewline e = true) :
    joinStreamDecode parse [renderLines (frameLinesRaw none p)] = [⟨"message", v⟩]
    ∧ joinStreamDecode parse [renderLines (frameLinesRaw (some e) p)]
        = [⟨if trimChars e == "" then "message" else trimChars e, v⟩] := by
  constructor
  · have hl : ∀ l ∈ frameLinesRaw none p, noNewline l = true :=
      frameLinesRaw_noNewline none p rfl hpn
    rw [joinStreamDecode_renderLines parse _ hl]
    have h := processLines_wf_frame parse none p v [] "" "" hp hpne
    simpa [processLines] using h
  · have hl : ∀ l ∈ frameLinesRaw (some e) p, noNewline l = true :=
      frameLinesRaw_noNewline (some e) p (by simpa [Option.all] using hen) hpn
    rw [joinStreamDecode_renderLines parse _ hl]
    have h := processLines_wf_frame parse (some e) p v [] "" "" hp hpne
    simpa [processLines] using h

/-- Witness for the amended C7 at a concrete frame with event name "run" and
payload "1", and the same frame without an event line. -/
theorem joinStream_event_name_amended_witness :
    joinStreamDecode jsonParseDigits [renderLines (frameLinesRaw none "1")]
        = [⟨"message", 1⟩]
    ∧ joinStreamDecode jsonParseDigits [renderLines (frameLinesRaw (some "run") "1")]
        = [⟨if trimChars "run" == "" then "message" else trimChars "run", 1⟩] :=
  joinStream_event_name_amended jsonParseDigits "run" "1" 1 (by decide) (by decide)
    (by decide) (by decide)

/-- C8: a joinStream call whose initial response is successful but carries no
body yields zero chunks and terminates normally, raising no error (and never
obtains a reader, hence zero releases). -/
theorem joinStream_empty_body_yields_nothing {α : Type} (parse : String → Option α)
    (response : StreamResponse) (limit : Option Nat)
    (hok : responseOk response.status = true) (hb : response.body = none) :
    joinStreamRun parse response limit = Except.ok ⟨[], ExitKind.normal, 0⟩ := by
  simp [joinStreamRun, hok, hb]

/-- Witness for C8 at a concrete bodyless 200 response. -/
theorem joinStream_empty_body_yields_nothing_witness :
    joinStreamRun jsonParseDigits ⟨200, "OK", none⟩ none
      = Except.ok ⟨[], ExitKind.normal, 0⟩ :=
  joinStream_empty_body_yields_nothing jsonParseDigits ⟨200, "OK", none⟩ none (by decide) rfl

/-- C9: getHistory issues a GET request to
`{base}/threads/{threadId}/history?limit={n}` with the thread id
percent-encoded as a path segment, where n is the caller-supplied limit when
given and 100 when the limit is unspecified. -/
theorem getHistory_request_shape (baseUrl threadId : String)
    (options : Option HistoryOptions) :
    (getHistoryRequest baseUrl threadId options).method = "GET"
    ∧ (getHistoryRequest baseUrl threadId options).url
        = normalizeBaseUrl baseUrl ++ "/threads/" ++ encodeURIComponent threadId
          ++ "/history?limit="
          ++ toString (match options with
              | some o => o.limit.getD 100
              | none => 100) :=
  ⟨rfl, rfl⟩

/-- Sanity example: percent-encoding of a path-hostile thread id. -/
example : encodeURIComponent "a/b c" = "a%2Fb%20c" := by decide

/-- Sanity example: the default limit appears in the URL when no options are
given. -/
example :
    (getHistoryRequest "http://localhost:8123/" "t 1" none).url
      = "http://localhost:8123/threads/t%201/history?limit=100" := by decide

/-- C10: in a frame with several data lines before its terminating blank
line, only the final data line's payload is parsed and emitted — earlier data
lines of the frame are overwritten, not concatenated (they need not even
parse). -/
theorem joinStream_last_data_line_wins {α : Type} (parse : String → Option α)
    (ps : List String) (p : String) (v : α)
    (hp : parse p = some v) (hpne : p ≠ "")
    (hps : ∀ q ∈ ps, noNewline q = true) (hpn : noNewline p = true) :
    joinStreamDecode parse
        [renderLines ((ps.map (fun q => "data: " ++ q)) ++ frameLinesRaw none p)]
      = [⟨"message", v⟩] := by
  have hl : ∀ l ∈ (ps.map (fun q => "data: " ++ q)) ++ frameLinesRaw none p,
      noNewline l = true := by
    intro l hl
    rw [List.mem_append] at hl
    rcases hl with hl | hl
    · rw [List.mem_map] at hl
      obtain ⟨q, hq, hql⟩ := hl
      subst hql
      simp [noNewline_append, noNewline_data_lit, hps q hq]
    · exact frameLinesRaw_noNewline none p rfl hpn l hl
  rw [joinStreamDecode_renderLines parse _ hl]
  obtain ⟨d1, hd1⟩ := processLines_data_lines parse ps (frameLinesRaw none p) "" ""
  rw [hd1]
  have h := processLines_wf_frame parse none p v [] "" d1 hp hpne
  simpa [processLines] using h

/-- Witness for C10: a frame with data lines "9", "\x7b" and finally "5" emits
only the value 5 (note "\x7b" does not even parse). -/
theorem joinStream_last_data_line_wins_witness :
    joinStreamDecode jsonParseDigits
        [renderLines ((["9", "\x7b"].map (fun q => "data: " ++ q)) ++ frameLinesRaw none "5")]
      = [⟨"message", 5⟩] :=
  joinStream_last_data_line_wins jsonParseDigits ["9", "\x7b"] "5" 5 (by decide) (by decide)
    (by decide) (by decide)
